import Mathlib

/-!
Shallow embedding of the `pandas-string-transformer` repository
(`src/string_transformer.py` and `src/common_transforms.py`).

Python values that flow through the library are modelled by `PyVal`;
errors raised by Python code are modelled by `Except PyErr`.  A Python
callable usable as a pipeline step receives a first positional argument,
extra positional arguments and keyword arguments, and either returns a
value or raises: `Callable`.  Pandas data frames are modelled by
`DataFrame` (named columns with a declared dtype and a list of cell
values); only the capabilities the source uses are embedded: column
selection by dtype (`select_dtypes`), column lookup (`X[col]`, raising
`KeyError`), per-cell `map`, and `assign`.

All definitions are executable; machine-level 32-bit arithmetic in the
SHA-1 model uses `Nat` with explicit `% 2 ^ 32`.
-/

set_option maxRecDepth 100000

/-- Kind of a raised Python error (by condition, not concrete class). -/
inductive PyErrKind where
  | typeError
  | valueError
  | keyError
  | attributeError
deriving DecidableEq, Repr

/-- A raised Python error: its kind and message. -/
structure PyErr where
  kind : PyErrKind
  msg : String
deriving DecidableEq, Repr

/-- Python values handled by the library: strings, integers, `None`, and
string-to-string dicts (the only dict shape the library's transforms use,
e.g. the `mapping` of `multi_replace`). -/
inductive PyVal where
  | vstr : String → PyVal
  | vint : Int → PyVal
  | vnone : PyVal
  | vdict : List (String × String) → PyVal
deriving DecidableEq, Repr

/-- Keyword arguments of a Python call: name/value pairs in order. -/
abbrev KwArgs := List (String × PyVal)

/-- A Python callable used as a pipeline step: first positional argument,
extra positional arguments, keyword arguments; returns a value or raises. -/
abbrev Callable := PyVal → List PyVal → KwArgs → Except PyErr PyVal

/-- A registered pipeline step: the tuple `(func, args, kwargs)` appended by
`StringTransformer.add`. -/
abbrev PyStep := Callable × List PyVal × KwArgs

/-! ### Python `str.replace` (used by `common_transforms.multi_replace`) -/

/-- One left-to-right pass of Python `str.replace` over a character list:
replace each non-overlapping occurrence of `pat` (nonempty) by `rep`.
`fuel` bounds the recursion; `fuel = s.length` suffices. -/
def replaceFromFuel : Nat → List Char → List Char → List Char → List Char
  | 0, s, _, _ => s
  | _ + 1, [], _, _ => []
  | fuel + 1, c :: rest, pat, rep =>
    if pat ≠ [] ∧ pat.isPrefixOf (c :: rest) then
      rep ++ replaceFromFuel fuel ((c :: rest).drop pat.length) pat rep
    else
      c :: replaceFromFuel fuel rest pat rep

/-- Python `str.replace(pat, rep)`: replaces every non-overlapping
occurrence of `pat` in `s`, scanning left to right.  For an empty `pat`,
Python inserts `rep` before every character and after the last one. -/
def py_replace (s pat rep : String) : String :=
  if pat.data.isEmpty then
    ⟨rep.data ++ s.data.foldr (fun c acc => c :: rep.data ++ acc) []⟩
  else
    ⟨replaceFromFuel s.data.length s.data pat.data rep.data⟩

/-! ### `common_transforms.multi_replace` -/

/-- Embeds `common_transforms.multi_replace` (src/common_transforms.py,
lines 40-58): folds `value = value.replace(search, replace)` over the
mapping's search/replace pairs in mapping (insertion) order. -/
def multi_replace (value : String) (mapping : List (String × String)) : String :=
  mapping.foldl (fun v p => py_replace v p.1 p.2) value

/-- `common_transforms.multi_replace` wrapped as a Python `Callable`.
The source signature is `multi_replace(value, mapping=None)`: the mapping
comes from the first extra positional argument, else from the keyword
argument `mapping`, else defaults to `None`; `mapping.items()` on `None`
(or any non-dict) raises an `AttributeError`-kind error, and a non-string
`value` has no `.replace`, which also raises. -/
def multi_replace_callable : Callable := fun value args kwargs =>
  let mapping? : Option PyVal :=
    match args with
    | m :: _ => some m
    | [] => kwargs.lookup "mapping"
  match mapping? with
  | none => Except.error ⟨PyErrKind.attributeError, "NoneType object has no attribute items"⟩
  | some (PyVal.vdict m) =>
    match value with
    | PyVal.vstr s => Except.ok (PyVal.vstr (multi_replace s m))
    | _ => Except.error ⟨PyErrKind.attributeError, "object has no attribute replace"⟩
  | some _ => Except.error ⟨PyErrKind.attributeError, "object has no attribute items"⟩

/-! ### SHA-1 (the digest behind `hashlib.sha1`) -/

/-- 32-bit left rotation on `Nat` (inputs below `2 ^ 32`). -/
def rotl32 (n x : Nat) : Nat :=
  ((x <<< n) % 4294967296) ||| (x >>> (32 - n))

/-- UTF-8 encoding of a single character, as byte values. -/
def utf8EncodeChar (c : Char) : List Nat :=
  let n := c.toNat
  if n < 128 then [n]
  else if n < 2048 then
    [192 ||| (n >>> 6), 128 ||| (n &&& 63)]
  else if n < 65536 then
    [224 ||| (n >>> 12), 128 ||| ((n >>> 6) &&& 63), 128 ||| (n &&& 63)]
  else
    [240 ||| (n >>> 18), 128 ||| ((n >>> 12) &&& 63),
     128 ||| ((n >>> 6) &&& 63), 128 ||| (n &&& 63)]

/-- UTF-8 encoding of a string (`value.encode()` in Python). -/
def strToUTF8 (s : String) : List Nat :=
  s.data.foldl (fun acc c => acc ++ utf8EncodeChar c) []

/-- Big-endian byte serialization of `v` on `n` bytes. -/
def toBytesBE (n v : Nat) : List Nat :=
  (List.range n).map (fun i => (v >>> (8 * (n - 1 - i))) % 256)

/-- SHA-1 padding: append `0x80`, zero bytes up to 56 mod 64, then the
bit length on 8 big-endian bytes. -/
def sha1Pad (msg : List Nat) : List Nat :=
  let len := msg.length
  let padZeros := (55 + 64 - len % 64) % 64
  msg ++ [128] ++ List.replicate padZeros 0 ++ toBytesBE 8 (len * 8)

/-- Splits a byte list into 64-byte blocks (`fuel = l.length` suffices). -/
def chunks64Fuel : Nat → List Nat → List (List Nat)
  | 0, _ => []
  | fuel + 1, l =>
    if l.isEmpty then [] else l.take 64 :: chunks64Fuel fuel (l.drop 64)

/-- Splits a byte list into 64-byte blocks. -/
def chunks64 (l : List Nat) : List (List Nat) :=
  chunks64Fuel l.length l

/-- The 16 big-endian 32-bit words of a 64-byte block. -/
def bytesToWords (block : List Nat) : List Nat :=
  (List.range 16).map (fun i =>
    ((block.getD (4 * i) 0) <<< 24) ||| ((block.getD (4 * i + 1) 0) <<< 16) |||
    ((block.getD (4 * i + 2) 0) <<< 8) ||| block.getD (4 * i + 3) 0)

/-- Extends the 16-word schedule to 80 words
(`w[i] = rotl1 (w[i-3] xor w[i-8] xor w[i-14] xor w[i-16])`). -/
def sha1ExtendGo : Nat → List Nat → List Nat
  | 0, ws => ws
  | fuel + 1, ws =>
    if ws.length < 80 then
      sha1ExtendGo fuel
        (ws ++ [rotl32 1 (((ws.getD (ws.length - 3) 0) ^^^ (ws.getD (ws.length - 8) 0)) ^^^
                          ((ws.getD (ws.length - 14) 0) ^^^ (ws.getD (ws.length - 16) 0)))])
    else ws

/-- The 80 rounds of the SHA-1 compression function over one block. -/
def sha1Rounds (ws : List Nat) (st : Nat × Nat × Nat × Nat × Nat) :
    Nat × Nat × Nat × Nat × Nat :=
  (List.range 80).foldl (fun st i =>
    let a := st.1; let b := st.2.1; let c := st.2.2.1
    let d := st.2.2.2.1; let e := st.2.2.2.2
    let f :=
      if i < 20 then (b &&& c) ||| ((b ^^^ 4294967295) &&& d)
      else if i < 40 then (b ^^^ c) ^^^ d
      else if i < 60 then ((b &&& c) ||| (b &&& d)) ||| (c &&& d)
      else (b ^^^ c) ^^^ d
    let k :=
      if i < 20 then 1518500249
      else if i < 40 then 1859775393
      else if i < 60 then 2400959708
      else 3395469782
    let temp := (rotl32 5 a + f + e + k + ws.getD i 0) % 4294967296
    (temp, a, rotl32 30 b, c, d)) st

/-- Processes one 64-byte block of SHA-1. -/
def sha1Block (h : Nat × Nat × Nat × Nat × Nat) (block : List Nat) :
    Nat × Nat × Nat × Nat × Nat :=
  let ws := sha1ExtendGo 80 (bytesToWords block)
  let t := sha1Rounds ws h
  ((h.1 + t.1) % 4294967296, (h.2.1 + t.2.1) % 4294967296,
   (h.2.2.1 + t.2.2.1) % 4294967296, (h.2.2.2.1 + t.2.2.2.1) % 4294967296,
   (h.2.2.2.2 + t.2.2.2.2) % 4294967296)

/-- One lowercase hexadecimal digit. -/
def hexDigit (n : Nat) : Char :=
  if n < 10 then Char.ofNat (48 + n) else Char.ofNat (87 + n)

/-- A 32-bit word as 8 lowercase hexadecimal digits. -/
def hex8 (v : Nat) : String :=
  ⟨(List.range 8).map (fun i => hexDigit ((v >>> (4 * (7 - i))) % 16))⟩

/-- SHA-1 hexdigest of a byte list (lowercase). -/
def sha1Hex (msg : List Nat) : String :=
  let t := (chunks64 (sha1Pad msg)).foldl sha1Block
    (1732584193, 4023233417, 2562383102, 271733878, 3285377520)
  hex8 t.1 ++ hex8 t.2.1 ++ hex8 t.2.2.1 ++ hex8 t.2.2.2.1 ++ hex8 t.2.2.2.2

/-! ### `common_transforms.hash_string` -/

/-- Modelled collaborator: the Python `hashlib` module, reduced to the
capabilities `hash_string` uses — the registry of available algorithm
names (`hashlib.algorithms_available`) and, for each available name, a
hexdigest constructor (`getattr(hashlib, name)`).  The concrete instance
`hashlib` below carries the one algorithm the spec's examples exercise
(`"sha1"`), with its genuine digest. -/
structure HashRegistry where
  available : List String
  hexdigest : String → List Nat → String

/-- The modelled `hashlib` runtime: `"sha1"` is available and its
constructor computes the genuine SHA-1 hexdigest. -/
def hashlib : HashRegistry :=
  ⟨["sha1"], fun a bytes => if a = "sha1" then sha1Hex bytes else ""⟩

/-- Embeds `common_transforms.hash_string` (src/common_transforms.py,
lines 60-80) over a hash registry `lib`: raise `ValueError` if the named
algorithm is not in `lib.available`, otherwise return the hexdigest of
the UTF-8 encoding of `value`.  The source's default for `algorithm` is
`"sha1"`. -/
def hash_string (lib : HashRegistry) (value : String) (algorithm : String) :
    Except PyErr String :=
  if lib.available.contains algorithm then
    Except.ok (lib.hexdigest algorithm (strToUTF8 value))
  else
    Except.error ⟨PyErrKind.valueError,
      "Algorith " ++ algorithm ++ " is not available on this system."⟩

/-! ### The data frame collaborator (pandas, reduced to what the source uses) -/

/-- Declared element type of a column: `object` (textual/generic) or a
non-object dtype (numeric and friends, which `select_dtypes(["object"])`
excludes). -/
inductive Dtype where
  | object
  | numeric
deriving DecidableEq, Repr

/-- A data frame column: its declared dtype and its cell values. -/
structure Column where
  dtype : Dtype
  values : List PyVal
deriving DecidableEq, Repr

/-- A pandas data frame: named columns in order. -/
structure DataFrame where
  cols : List (String × Column)
deriving DecidableEq, Repr

/-- The column names of a frame, in order. -/
def DataFrame.names (X : DataFrame) : List String :=
  X.cols.map (fun c => c.1)

/-- `X.select_dtypes(include=["object"])`, reduced to the names of the
selected columns (the source only iterates over the result). -/
def DataFrame.select_dtypes_object (X : DataFrame) : List String :=
  (X.cols.filter (fun c => c.2.dtype == Dtype.object)).map (fun c => c.1)

/-- `X[name]`: the first column named `name`, raising a `KeyError`-kind
error when no such column exists. -/
def DataFrame.getCol (X : DataFrame) (name : String) : Except PyErr Column :=
  match X.cols.find? (fun c => c.1 == name) with
  | some c => Except.ok c.2
  | none => Except.error ⟨PyErrKind.keyError, name⟩

/-- The cell values of column `name`, when present (observation used to
state the claims; not a source function). -/
def DataFrame.colValues (X : DataFrame) (name : String) : Option (List PyVal) :=
  (X.cols.find? (fun c => c.1 == name)).map (fun c => c.2.values)

/-- Python `dict.update({k: v})` on an association list with unique keys:
an existing key keeps its position and gets the new value, a new key is
appended. -/
def dict_update (d : List (String × List PyVal)) (k : String) (v : List PyVal) :
    List (String × List PyVal) :=
  if d.any (fun p => p.1 == k) then
    d.map (fun p => if p.1 == k then (k, v) else p)
  else
    d ++ [(k, v)]

/-- `X.assign(**fs)`: a new frame in which every existing column named in
`fs` is replaced (in place, keeping its position) by a column with the
given values, and names of `fs` absent from `X` are appended as new
columns.  pandas re-infers the dtype of an assigned column; the embedding
does not track produced dtypes and marks them `object` (the claims are
stated over names and values). -/
def DataFrame.assign (X : DataFrame) (fs : List (String × List PyVal)) : DataFrame :=
  ⟨(X.cols.map (fun nc =>
      match fs.lookup nc.1 with
      | some vs => (nc.1, Column.mk Dtype.object vs)
      | none => nc)) ++
   ((fs.filter (fun f => !(X.names.contains f.1))).map
      (fun f => (f.1, Column.mk Dtype.object f.2)))⟩

/-! ### `string_transformer.StringTransformer` -/

/-- The pipeline object (src/string_transformer.py, lines 23-35): an
optional custom column selection and the ordered list of registered
steps. -/
structure StringTransformer where
  _columns : Option (List String)
  _pipeline : List PyStep

/-- The `func` argument of `add` / `_check_function`: either an actual
callable or a non-callable Python value. -/
inductive FuncArg where
  | fn : Callable → FuncArg
  | notCallable : PyVal → FuncArg

/-- Embeds `StringTransformer._check_function` (src/string_transformer.py,
lines 101-123): `TypeError` if `func` is not callable; probe
`func("test_string", *args, **kwargs)`; any raise becomes the
"does not work with strings" `ValueError`; a non-string result becomes the
"does not return a string" `ValueError`.  On success the callable is
returned so `add` can append it. -/
def StringTransformer._check_function (func : FuncArg) (args : List PyVal)
    (kwargs : KwArgs) : Except PyErr Callable :=
  match func with
  | FuncArg.notCallable _ =>
    Except.error ⟨PyErrKind.typeError, "Supplied function is not callable!"⟩
  | FuncArg.fn g =>
    match g (PyVal.vstr "test_string") args kwargs with
    | Except.error _ =>
      Except.error ⟨PyErrKind.valueError, "Supplied function does not work with strings!"⟩
    | Except.ok r =>
      match r with
      | PyVal.vstr _ => Except.ok g
      | _ =>
        Except.error ⟨PyErrKind.valueError, "Supplied function does not return a string!"⟩

/-- Embeds `StringTransformer.add` (src/string_transformer.py, lines
37-51).  The source calls `self._check_function(func)` without forwarding
`args`/`kwargs`, so the probe call receives no extra arguments; on
success the step `(func, args, kwargs)` is appended. -/
def StringTransformer.add (self : StringTransformer) (func : FuncArg)
    (args : List PyVal) (kwargs : KwArgs) : Except PyErr StringTransformer :=
  match StringTransformer._check_function func [] [] with
  | Except.error e => Except.error e
  | Except.ok g =>
    Except.ok { self with _pipeline := self._pipeline ++ [(g, args, kwargs)] }

/-- An element of the tuple accepted by `StringTransformer.__add__`,
classified the way the source's loop classifies it: a callable, a dict,
a tuple/list (taken as positional arguments), or anything else
(silently skipped). -/
inductive StepElem where
  | cal : Callable → StepElem
  | dic : KwArgs → StepElem
  | seq : List PyVal → StepElem
  | other : PyVal → StepElem

/-- The `step` argument of `StringTransformer.__add__`: a bare callable,
a tuple of elements, or any other value. -/
inductive StepDesc where
  | cal : Callable → StepDesc
  | tup : List StepElem → StepDesc
  | other : PyVal → StepDesc

/-- The element loop of `StringTransformer.__add__` (src/string_transformer.py,
lines 80-87): starting from `func = None`, `args = []`, `kwargs = {}`,
each callable element overwrites `func`, each dict overwrites `kwargs`,
each tuple/list overwrites `args`, and other elements are skipped. -/
def extractStep (elems : List StepElem) : Option Callable × List PyVal × KwArgs :=
  elems.foldl (fun acc e =>
    match e with
    | StepElem.cal f => (some f, acc.2.1, acc.2.2)
    | StepElem.dic d => (acc.1, acc.2.1, d)
    | StepElem.seq l => (acc.1, l, acc.2.2)
    | StepElem.other _ => acc) (none, [], [])

/-- Embeds `StringTransformer.__add__` (src/string_transformer.py, lines
53-99): a bare callable is registered with no extra arguments; a tuple is
decomposed by `extractStep`; any other value raises `TypeError`; a tuple
yielding no callable raises `ValueError`; otherwise the normalized step is
delegated to `add`.  In the source a successful call returns `self`
(the mutated pipeline object); in the pure embedding it returns the
updated transformer produced by `add`. -/
def StringTransformer.dunderAdd (self : StringTransformer) (step : StepDesc) :
    Except PyErr StringTransformer :=
  match step with
  | StepDesc.cal f => self.add (FuncArg.fn f) [] []
  | StepDesc.tup elems =>
    let acc := extractStep elems
    match acc.1 with
    | none => Except.error ⟨PyErrKind.valueError, "No handler name specified."⟩
    | some f => self.add (FuncArg.fn f) acc.2.1 acc.2.2
  | StepDesc.other _ =>
    Except.error ⟨PyErrKind.typeError, "Can only add steps as callable or tuple."⟩

/-- Embeds `StringTransformer._apply_steps` (src/string_transformer.py,
lines 134-150): fold the value through the pipeline, each step called as
`func(value, *args, **kwargs)`. -/
def StringTransformer._apply_steps (self : StringTransformer) (value : PyVal) :
    Except PyErr PyVal :=
  self._pipeline.foldlM (fun v st => st.1 v st.2.1 st.2.2) value

/-- The column-selection line of `transform` (src/string_transformer.py,
line 170): `self._columns or X.select_dtypes(include=["object"])` — by
Python truthiness, `None` and the empty list both fall through to the
dtype-based selection. -/
def StringTransformer.selectedColumns (self : StringTransformer) (X : DataFrame) :
    List String :=
  match self._columns with
  | some cs => if cs.isEmpty then X.select_dtypes_object else cs
  | none => X.select_dtypes_object

/-- One iteration of the `funcs` loop of `transform`
(src/string_transformer.py, lines 174-175): look the column up (`KeyError`
when absent), map `_apply_steps` over its cells, and store the result
under the column's name (`dict.update`). -/
def StringTransformer.buildStep (self : StringTransformer) (X : DataFrame)
    (funcs : List (String × List PyVal)) (col : String) :
    Except PyErr (List (String × List PyVal)) := do
  let c ← X.getCol col
  let mapped ← c.values.mapM self._apply_steps
  pure (dict_update funcs col mapped)

/-- The `funcs` loop of `transform` (src/string_transformer.py, lines
173-175): `buildStep` folded over the selected columns in order, starting
from the empty dict. -/
def StringTransformer.buildFuncs (self : StringTransformer) (X : DataFrame)
    (columns : List String) : Except PyErr (List (String × List PyVal)) :=
  columns.foldlM (self.buildStep X) []

/-- Embeds `StringTransformer.transform` (src/string_transformer.py,
lines 152-177): select the target columns, build the transformed column
values, and return `X.assign(**funcs)`.  The embedding is a pure
function: the input frame is never mutated, also when an error is
raised mid-way. -/
def StringTransformer.transform (self : StringTransformer) (X : DataFrame) :
    Except PyErr DataFrame := do
  let columns := self.selectedColumns X
  let funcs ← self.buildFuncs X columns
  pure (X.assign funcs)

/-! ### Definitions written from the claims' wording (for refinement) -/

/-- Spec-side restatement of the per-value algorithm (claim C5):
`fn(...f2(f1(s, *a1, **k1), *a2, **k2)..., *an, **kn)` — each step applied
in order, its output feeding the next step's first positional argument,
the fixed extra arguments supplied unchanged, errors propagating
unmodified. -/
def spec_compose : List PyStep → PyVal → Except PyErr PyVal
  | [], v => Except.ok v
  | st :: rest, v =>
    match st.1 v st.2.1 st.2.2 with
    | Except.ok w => spec_compose rest w
    | Except.error e => Except.error e

/-- Spec-side "last callable element of the tuple" (claim C10). -/
def lastCallable : List StepElem → Option Callable
  | [] => none
  | e :: rest =>
    match lastCallable rest with
    | some f => some f
    | none => match e with | StepElem.cal f => some f | _ => none

/-- Spec-side "last dict element of the tuple" (claim C10). -/
def lastDict : List StepElem → Option KwArgs
  | [] => none
  | e :: rest =>
    match lastDict rest with
    | some d => some d
    | none => match e with | StepElem.dic d => some d | _ => none

/-- Spec-side "last tuple/list element of the tuple" (claim C10). -/
def lastSeq : List StepElem → Option (List PyVal)
  | [] => none
  | e :: rest =>
    match lastSeq rest with
    | some l => some l
    | none => match e with | StepElem.seq l => some l | _ => none

/-- A concrete step callable for witnesses: returns the constant string
`t` whatever its arguments. -/
def constC (t : String) : Callable := fun _ _ _ => Except.ok (PyVal.vstr t)

/-- `funcs` built by a successful `buildFuncs` run are correct per column:
every stored entry is the `_apply_steps`-image of the cells of the
existing column of that name. -/
def funcsSpec (self : StringTransformer) (X : DataFrame)
    (fs : List (String × List PyVal)) : Prop :=
  ∀ p ∈ fs, ∃ c, X.getCol p.1 = Except.ok c ∧
    c.values.mapM self._apply_steps = Except.ok p.2

/-! ### Concrete fixtures for witnesses and counterexamples -/

/-- A two-column frame: a textual column `a` and a numeric column `b`. -/
def frameAB : DataFrame :=
  ⟨[("a", ⟨Dtype.object, [PyVal.vstr "x", PyVal.vstr "y"]⟩),
    ("b", ⟨Dtype.numeric, [PyVal.vint 7, PyVal.vint 8]⟩)]⟩

/-- A one-column frame with a single textual column `a`. -/
def frameA : DataFrame :=
  ⟨[("a", ⟨Dtype.object, [PyVal.vstr "x"]⟩)]⟩

/-- A transformer with explicit column list `["a"]` and one registered
step that rewrites every value to `"Z"`. -/
def tfmZ : StringTransformer := ⟨some ["a"], [(constC "Z", [], [])]⟩

/-- A transformer constructed with an explicit but empty column list and
the same constant step. -/
def tfmEmptyCols : StringTransformer := ⟨some [], [(constC "Z", [], [])]⟩

/-- A transformer with no explicit columns and no steps. -/
def tfmId : StringTransformer := ⟨none, []⟩

/-- A transformer whose explicit column list names a column that does not
exist in `frameA`. -/
def tfmMissing : StringTransformer := ⟨some ["zz"], []⟩

/-- The expected result of `tfmZ.transform frameAB`. -/
def frameABZ : DataFrame :=
  ⟨[("a", ⟨Dtype.object, [PyVal.vstr "Z", PyVal.vstr "Z"]⟩),
    ("b", ⟨Dtype.numeric, [PyVal.vint 7, PyVal.vint 8]⟩)]⟩

/-! ### Helper lemmas -/

@[simp]
theorem except_bind_ok {α β : Type} (a : α) (f : α → Except PyErr β) :
    (Except.ok a >>= f) = f a := rfl

@[simp]
theorem except_bind_error {α β : Type} (e : PyErr) (f : α → Except PyErr β) :
    ((Except.error e : Except PyErr α) >>= f) = Except.error e := rfl

theorem apply_steps_eq_spec_compose (ps : List PyStep) (v : PyVal) :
    ps.foldlM (fun v st => st.1 v st.2.1 st.2.2) v = spec_compose ps v := by
  induction ps generalizing v with
  | nil => rfl
  | cons st rest ih =>
    rw [List.foldlM_cons]
    cases h : st.1 v st.2.1 st.2.2 with
    | error e => simp [spec_compose, h]
    | ok w => simp [spec_compose, h, ih]

theorem spec_compose_cons (st : PyStep) (rest : List PyStep) (v : PyVal) :
    spec_compose (st :: rest) v =
      (st.1 v st.2.1 st.2.2) >>= spec_compose rest := by
  cases h : st.1 v st.2.1 st.2.2 <;> simp [spec_compose, h]

theorem spec_compose_append (l1 l2 : List PyStep) (v : PyVal) :
    spec_compose (l1 ++ l2) v = spec_compose l1 v >>= spec_compose l2 := by
  induction l1 generalizing v with
  | nil => simp [spec_compose]
  | cons st rest ih =>
    cases h : st.1 v st.2.1 st.2.2 <;>
      simp [spec_compose, h, ih]

theorem hex8_length (v : Nat) : (hex8 v).length = 8 := by
  simp [hex8, String.length]

theorem sha1Hex_length (msg : List Nat) : (sha1Hex msg).length = 40 := by
  simp [sha1Hex, String.length_append, hex8_length]

theorem extractStep_foldl_gen (elems : List StepElem)
    (acc : Option Callable × List PyVal × KwArgs) :
    elems.foldl (fun acc e =>
      match e with
      | StepElem.cal f => (some f, acc.2.1, acc.2.2)
      | StepElem.dic d => (acc.1, acc.2.1, d)
      | StepElem.seq l => (acc.1, l, acc.2.2)
      | StepElem.other _ => acc) acc =
    ((lastCallable elems).elim acc.1 some,
     (lastSeq elems).elim acc.2.1 id,
     (lastDict elems).elim acc.2.2 id) := by
  induction elems generalizing acc with
  | nil => simp [lastCallable, lastSeq, lastDict]
  | cons e rest ih =>
    rw [List.foldl_cons, ih]
    cases e <;>
      cases hc : lastCallable rest <;> cases hs : lastSeq rest <;>
      cases hd : lastDict rest <;>
      simp [lastCallable, lastSeq, lastDict, hc, hs, hd]

/-- Claim C8: `multi_replace` applies the caller-supplied search/replace
pairs as literal substring replacements sequentially in mapping order, so
an earlier replacement's output is visible to later rules; in particular
`multi_replace("abc", {"a":"b","b":"c"}) == "ccc"`. -/
theorem C8_multi_replace_sequential :
    (∀ (v : String) (m1 m2 : List (String × String)),
      multi_replace v (m1 ++ m2) = multi_replace (multi_replace v m1) m2) ∧
    multi_replace "abc" [("a", "b"), ("b", "c")] = "ccc" := by
  refine ⟨fun v m1 m2 => ?_, by decide⟩
  simp [multi_replace, List.foldl_append]

/-- Claim C5: `_apply_steps` returns the insertion-ordered composition of
the registered steps — each step's output feeds the next step's first
positional argument, each step's fixed extra positional/named arguments
are supplied unchanged, no step is skipped or reordered, and a raising
step's error propagates unmodified (the bind on `Except` in the second
conjunct short-circuits on `error`). -/
theorem C5_apply_steps_sequential_composition :
    (∀ (self : StringTransformer) (value : PyVal),
      self._apply_steps value = spec_compose self._pipeline value) ∧
    (∀ (cols : Option (List String)) (pre post : List PyStep) (f : Callable)
       (a : List PyVal) (k : KwArgs) (v : PyVal),
      StringTransformer._apply_steps ⟨cols, pre ++ (f, a, k) :: post⟩ v =
        StringTransformer._apply_steps ⟨cols, pre⟩ v >>= (fun w =>
          f w a k >>= StringTransformer._apply_steps ⟨cols, post⟩)) := by
  constructor
  · intro self value
    exact apply_steps_eq_spec_compose self._pipeline value
  · intro cols pre post f a k v
    have h2 : ∀ w, spec_compose ((f, a, k) :: post) w =
        f w a k >>= StringTransformer._apply_steps ⟨cols, post⟩ := by
      intro w
      rw [spec_compose_cons]
      refine congrArg (fun g => f w a k >>= g) ?_
      funext u
      exact (apply_steps_eq_spec_compose post u).symm
    simp only [StringTransformer._apply_steps, apply_steps_eq_spec_compose,
      spec_compose_append]
    exact congrArg (fun g => spec_compose pre v >>= g) (funext h2)

/-- Claim C1 (code divergence): `add` validates the function by probing it
with `"test_string"` alone — the supplied extra arguments are *not*
forwarded to `_check_function` (src/string_transformer.py, line 50), even
though `_check_function` accepts and documents them.  Probing
`multi_replace` together with its supplied mapping succeeds and returns a
string (first conjunct), yet `add(multi_replace, {"a": "b"})` probes
without the mapping, the probe raises, and registration is rejected with
the "does not work with strings" `ValueError` (second conjunct). -/
theorem C1_add_probe_ignores_supplied_arguments :
    multi_replace_callable (PyVal.vstr "test_string")
        [PyVal.vdict [("a", "b")]] [] = Except.ok (PyVal.vstr "test_string") ∧
    StringTransformer.add ⟨none, []⟩ (FuncArg.fn multi_replace_callable)
        [PyVal.vdict [("a", "b")]] [] =
      Except.error ⟨PyErrKind.valueError,
        "Supplied function does not work with strings!"⟩ := by
  constructor <;> rfl

/-- Claim C4: `hash_string` raises a `ValueError`-kind error exactly when
the named algorithm is not in the registry, otherwise returns the
registry's hexdigest of the UTF-8 encoding of the value; the digest of
`"abc"` under `"sha1"` (the source's default algorithm) is the well-known
SHA-1 value, and the `"sha1"` digest is 160 bits (40 hex characters). -/
theorem C4_hash_string_spec :
    (∀ (lib : HashRegistry) (v a : String),
      lib.available.contains a = false →
        hash_string lib v a = Except.error ⟨PyErrKind.valueError,
          "Algorith " ++ a ++ " is not available on this system."⟩) ∧
    (∀ (lib : HashRegistry) (v a : String),
      lib.available.contains a = true →
        hash_string lib v a = Except.ok (lib.hexdigest a (strToUTF8 v))) ∧
    hash_string hashlib "abc" "sha1" =
      Except.ok "a9993e364706816aba3e25717850c26c9cd0d89d" ∧
    (∀ v : String, ∃ d, hash_string hashlib v "sha1" = Except.ok d ∧
      d.length = 40) := by
  refine ⟨fun lib v a h => ?_, fun lib v a h => ?_, ?_, fun v => ?_⟩
  · unfold hash_string
    rw [h]
    rfl
  · unfold hash_string
    rw [h]
    rfl
  · have habc : sha1Hex (strToUTF8 "abc") =
        "a9993e364706816aba3e25717850c26c9cd0d89d" := by decide
    calc hash_string hashlib "abc" "sha1"
        = Except.ok (sha1Hex (strToUTF8 "abc")) := rfl
      _ = Except.ok "a9993e364706816aba3e25717850c26c9cd0d89d" := by rw [habc]
  · exact ⟨sha1Hex (strToUTF8 v), rfl, sha1Hex_length _⟩

/-- Witness for C4 at concrete inputs: an unavailable algorithm name and
the default `"sha1"`. -/
theorem C4_hash_string_spec_witness :
    hash_string hashlib "x" "not_an_algo" = Except.error ⟨PyErrKind.valueError,
      "Algorith " ++ "not_an_algo" ++ " is not available on this system."⟩ ∧
    hash_string hashlib "abc" "sha1" =
      Except.ok (hashlib.hexdigest "sha1" (strToUTF8 "abc")) :=
  ⟨C4_hash_string_spec.1 hashlib "x" "not_an_algo" (by decide),
   C4_hash_string_spec.2.1 hashlib "abc" "sha1" (by decide)⟩

/-- Counterexample to claim C2 as stated: a pipeline constructed with the
explicit column list `[]` does *not* target that empty list — line 170's
`self._columns or X.select_dtypes(...)` treats the empty list as falsy,
so the object-dtype column `a` is targeted and rewritten. -/
theorem C2_counterexample_empty_column_list :
    StringTransformer.selectedColumns tfmEmptyCols frameA = ["a"] ∧
    StringTransformer.transform tfmEmptyCols frameA =
      Except.ok ⟨[("a", ⟨Dtype.object, [PyVal.vstr "Z"]⟩)]⟩ := by
  constructor <;> rfl

/-- Claim C2 as amended: `transform` targets exactly the explicit column
list when one was supplied *and it is non-empty*; when no list was
supplied — and likewise when the supplied list is empty — it targets
exactly the object-dtype columns of the input. -/
theorem C2_target_column_selection (self : StringTransformer) (X : DataFrame) :
    (∀ cs, self._columns = some cs → cs ≠ [] → self.selectedColumns X = cs) ∧
    (self._columns = none ∨ self._columns = some [] →
      self.selectedColumns X = X.select_dtypes_object) := by
  constructor
  · intro cs hcs hne
    cases cs with
    | nil => exact absurd rfl hne
    | cons hd tl => simp [StringTransformer.selectedColumns, hcs]
  · rintro (hc | hc) <;> simp [StringTransformer.selectedColumns, hc]

/-- Witness for C2 (amended) at concrete transformers. -/
theorem C2_target_column_selection_witness :
    StringTransformer.selectedColumns tfmZ frameAB = ["a"] ∧
    StringTransformer.selectedColumns tfmId frameAB =
      frameAB.select_dtypes_object :=
  ⟨(C2_target_column_selection tfmZ frameAB).1 ["a"] rfl (by decide),
   (C2_target_column_selection tfmId frameAB).2 (Or.inl rfl)⟩

/-- Claim C6: `__add__` normalizes a bare callable to `(f, [], {})` and a
tuple to the elements its loop extracted, delegating both to `add`'s
validation-and-append path; a non-callable non-tuple raises `TypeError`,
a tuple without a callable raises `ValueError`, and a successful call
returns the pipeline object (in the pure embedding, the transformer with
the step appended), so additions chain. -/
theorem C6_dunder_add_normalization :
    (∀ (self : StringTransformer) (f : Callable),
      self.dunderAdd (StepDesc.cal f) = self.add (FuncArg.fn f) [] []) ∧
    (∀ (self : StringTransformer) (elems : List StepElem) (f : Callable)
       (a : List PyVal) (k : KwArgs),
      extractStep elems = (some f, a, k) →
        self.dunderAdd (StepDesc.tup elems) = self.add (FuncArg.fn f) a k) ∧
    (∀ (self : StringTransformer) (elems : List StepElem),
      (extractStep elems).1 = none →
        self.dunderAdd (StepDesc.tup elems) =
          Except.error ⟨PyErrKind.valueError, "No handler name specified."⟩) ∧
    (∀ (self : StringTransformer) (v : PyVal),
      self.dunderAdd (StepDesc.other v) =
        Except.error ⟨PyErrKind.typeError, "Can only add steps as callable or tuple."⟩) ∧
    (∀ (self : StringTransformer) (f : Callable) (s : String),
      f (PyVal.vstr "test_string") [] [] = Except.ok (PyVal.vstr s) →
        self.dunderAdd (StepDesc.cal f) =
          Except.ok { self with _pipeline := self._pipeline ++ [(f, [], [])] }) := by
  refine ⟨fun self f => rfl, fun self elems f a k h => ?_,
    fun self elems h => ?_, fun self v => rfl, fun self f s h => ?_⟩
  · simp [StringTransformer.dunderAdd, h]
  · simp [StringTransformer.dunderAdd, h]
  · simp [StringTransformer.dunderAdd, StringTransformer.add,
      StringTransformer._check_function, h]

/-- Witness for C6: a bare constant callable is appended, and a
one-element tuple normalizes to the same registration. -/
theorem C6_dunder_add_normalization_witness :
    StringTransformer.dunderAdd ⟨none, []⟩ (StepDesc.cal (constC "A")) =
      Except.ok ⟨none, [(constC "A", [], [])]⟩ ∧
    StringTransformer.dunderAdd ⟨none, []⟩ (StepDesc.tup [StepElem.cal (constC "A")]) =
      StringTransformer.add ⟨none, []⟩ (FuncArg.fn (constC "A")) [] [] :=
  ⟨C6_dunder_add_normalization.2.2.2.2 ⟨none, []⟩ (constC "A") "A" rfl,
   C6_dunder_add_normalization.2.1 ⟨none, []⟩ [StepElem.cal (constC "A")]
     (constC "A") [] [] rfl⟩

/-- Claim C10: when the tuple handed to `__add__` holds several elements
of the same kind, the loop's repeated assignment keeps only the last
callable, the last dict and the last tuple/list — the earlier ones are
silently discarded, with no error raised (demonstrated concretely in the
second conjunct). -/
theorem C10_last_element_wins :
    (∀ elems : List StepElem,
      extractStep elems =
        (lastCallable elems, (lastSeq elems).getD [], (lastDict elems).getD [])) ∧
    StringTransformer.dunderAdd ⟨none, []⟩ (StepDesc.tup
      [StepElem.cal (constC "A"), StepElem.dic [("x", PyVal.vint 1)],
       StepElem.seq [PyVal.vstr "p"], StepElem.cal (constC "B"),
       StepElem.dic [("y", PyVal.vint 2)], StepElem.seq [PyVal.vstr "q"]]) =
      Except.ok ⟨none, [(constC "B", [PyVal.vstr "q"], [("y", PyVal.vint 2)])]⟩ := by
  constructor
  · intro elems
    rw [extractStep, extractStep_foldl_gen]
    cases lastCallable elems <;> cases lastSeq elems <;> cases lastDict elems <;> rfl
  · rfl

theorem find?_fst_eq_some {l : List (String × Column)} {n : String}
    {pr : String × Column} (h : l.find? (fun c => c.1 == n) = some pr) :
    pr ∈ l ∧ pr.1 = n := by
  refine ⟨List.mem_of_find?_eq_some h, ?_⟩
  have := List.find?_some h
  simpa using this

theorem find?_fst_of_mem_names {X : DataFrame} {n : String} (h : n ∈ X.names) :
    ∃ pr, X.cols.find? (fun c => c.1 == n) = some pr ∧ pr.1 = n := by
  obtain ⟨pr, hpr, hfst⟩ := List.mem_map.mp h
  have hsome : (X.cols.find? (fun c => c.1 == n)).isSome := by
    rw [List.find?_isSome]
    exact ⟨pr, hpr, by simp [hfst]⟩
  obtain ⟨q, hq⟩ := Option.isSome_iff_exists.mp hsome
  exact ⟨q, hq, (find?_fst_eq_some hq).2⟩

theorem mem_names_of_getCol_ok {X : DataFrame} {n : String} {c : Column}
    (h : X.getCol n = Except.ok c) : n ∈ X.names := by
  unfold DataFrame.getCol at h
  cases hf : X.cols.find? (fun c => c.1 == n) with
  | none => rw [hf] at h; exact Except.noConfusion h
  | some pr =>
    obtain ⟨hmem, hfst⟩ := find?_fst_eq_some hf
    exact List.mem_map.mpr ⟨pr, hmem, hfst⟩

theorem getCol_error_of_not_mem {X : DataFrame} {n : String} (h : n ∉ X.names) :
    X.getCol n = Except.error ⟨PyErrKind.keyError, n⟩ := by
  unfold DataFrame.getCol
  rw [List.find?_eq_none.mpr]
  intro x hx hbeq
  exact h (List.mem_map.mpr ⟨x, hx, by simpa using hbeq⟩)

theorem colValues_of_getCol_ok {X : DataFrame} {n : String} {c : Column}
    (h : X.getCol n = Except.ok c) : X.colValues n = some c.values := by
  unfold DataFrame.getCol at h
  unfold DataFrame.colValues
  cases hf : X.cols.find? (fun c => c.1 == n) with
  | none => rw [hf] at h; exact Except.noConfusion h
  | some pr =>
    rw [hf] at h
    have : pr.2 = c := by simpa using h
    simp [this]

theorem mapM_ok_of_forall_ok {f : PyVal → Except PyErr PyVal} :
    ∀ (l : List PyVal), (∀ v ∈ l, ∃ w, f v = Except.ok w) →
      ∃ ws, l.mapM f = Except.ok ws := by
  intro l
  induction l with
  | nil => intro _; exact ⟨[], rfl⟩
  | cons v rest ih =>
    intro h
    obtain ⟨w, hw⟩ := h v (List.mem_cons_self v rest)
    obtain ⟨ws, hws⟩ := ih (fun u hu => h u (List.mem_cons_of_mem _ hu))
    refine ⟨w :: ws, ?_⟩
    rw [List.mapM_cons, hw]
    simp only [except_bind_ok]
    show List.cons w <$> List.mapM f rest = Except.ok (w :: ws)
    rw [hws]
    rfl

theorem mapM_id {f : PyVal → Except PyErr PyVal} (hf : ∀ v, f v = Except.ok v) :
    ∀ l : List PyVal, l.mapM f = Except.ok l := by
  intro l
  induction l with
  | nil => rfl
  | cons v rest ih =>
    rw [List.mapM_cons, hf]
    simp only [except_bind_ok]
    show List.cons v <$> List.mapM f rest = Except.ok (v :: rest)
    rw [ih]
    rfl

theorem apply_steps_nil {self : StringTransformer} (h : self._pipeline = [])
    (v : PyVal) : self._apply_steps v = Except.ok v := by
  unfold StringTransformer._apply_steps
  rw [h]
  rfl

theorem foldlM_ok_of_steps_ok :
    ∀ (ps : List PyStep), (∀ st ∈ ps, ∀ v a k, ∃ r, st.1 v a k = Except.ok r) →
      ∀ v, ∃ w, List.foldlM (fun v st => st.1 v st.2.1 st.2.2) v ps = Except.ok w := by
  intro ps
  induction ps with
  | nil => intro _ v; exact ⟨v, rfl⟩
  | cons st rest ih =>
    intro h v
    obtain ⟨r, hr⟩ := h st (List.mem_cons_self st rest) v st.2.1 st.2.2
    obtain ⟨w, hw⟩ := ih (fun s hs => h s (List.mem_cons_of_mem _ hs)) r
    refine ⟨w, ?_⟩
    rw [List.foldlM_cons, hr]
    simpa using hw

theorem lookup_eq_some_of_mem_nodup {d : List (String × List PyVal)} {k : String}
    {v : List PyVal} (hnd : (d.map (fun p => p.1)).Nodup) (hm : (k, v) ∈ d) :
    d.lookup k = some v := by
  induction d with
  | nil => cases hm
  | cons p rest ih =>
    cases p with
    | mk pk pv =>
      rw [List.map_cons, List.nodup_cons] at hnd
      rcases List.mem_cons.mp hm with h1 | h1
      · rw [← h1]
        simp [List.lookup_cons]
      · have hne : (k == pk) = false := by
          refine beq_eq_false_iff_ne.mpr ?_
          intro hk
          exact hnd.1 (hk ▸ List.mem_map.mpr ⟨(k, v), h1, rfl⟩)
        rw [List.lookup_cons, hne]
        exact ih hnd.2 h1

theorem lookup_eq_none_of_not_mem_keys {d : List (String × List PyVal)} {k : String}
    (h : k ∉ d.map (fun p => p.1)) : d.lookup k = none := by
  induction d with
  | nil => rfl
  | cons p rest ih =>
    cases p with
    | mk pk pv =>
      rw [List.map_cons] at h
      have hne : (k == pk) = false := by
        refine beq_eq_false_iff_ne.mpr ?_
        intro hk
        exact h (by rw [hk]; exact List.mem_cons_self _ _)
      rw [List.lookup_cons, hne]
      exact ih (fun hm => h (List.mem_cons_of_mem _ hm))

theorem dict_update_mem {d : List (String × List PyVal)} {k : String}
    {v : List PyVal} {p : String × List PyVal} (h : p ∈ dict_update d k v) :
    p ∈ d ∨ p = (k, v) := by
  unfold dict_update at h
  by_cases hc : (d.any (fun p => p.1 == k)) = true
  · rw [if_pos hc] at h
    obtain ⟨q, hq, hqe⟩ := List.mem_map.mp h
    by_cases hqk : (q.1 == k) = true
    · right
      rw [if_pos hqk] at hqe
      exact hqe.symm
    · left
      rw [if_neg hqk] at hqe
      exact hqe ▸ hq
  · rw [if_neg hc] at h
    rcases List.mem_append.mp h with h1 | h1
    · exact Or.inl h1
    · right
      simpa using h1

theorem dict_update_keys_any_true {d : List (String × List PyVal)} {k : String}
    {v : List PyVal} (hc : (d.any (fun p => p.1 == k)) = true) :
    (dict_update d k v).map (fun p => p.1) = d.map (fun p => p.1) := by
  unfold dict_update
  rw [if_pos hc, List.map_map]
  refine List.map_congr_left ?_
  intro p _
  by_cases hpk : (p.1 == k) = true
  · simp only [Function.comp_apply, if_pos hpk]
    exact (eq_of_beq hpk).symm
  · simp only [Function.comp_apply, if_neg hpk]

theorem dict_update_keys_any_false {d : List (String × List PyVal)} {k : String}
    {v : List PyVal} (hc : (d.any (fun p => p.1 == k)) = false) :
    (dict_update d k v).map (fun p => p.1) = d.map (fun p => p.1) ++ [k] := by
  unfold dict_update
  rw [if_neg (by rw [hc]; exact Bool.false_ne_true)]
  simp

theorem mem_keys_dict_update {d : List (String × List PyVal)} {k0 : String}
    {v : List PyVal} (k : String) :
    k ∈ (dict_update d k0 v).map (fun p => p.1) ↔
      (k ∈ d.map (fun p => p.1) ∨ k = k0) := by
  by_cases hc : (d.any (fun p => p.1 == k0)) = true
  · rw [dict_update_keys_any_true hc]
    have hk0 : k0 ∈ d.map (fun p => p.1) := by
      obtain ⟨q, hq, hqe⟩ := List.any_eq_true.mp hc
      exact List.mem_map.mpr ⟨q, hq, eq_of_beq hqe⟩
    constructor
    · exact Or.inl
    · rintro (h | rfl)
      · exact h
      · exact hk0
  · have hc' : (d.any (fun p => p.1 == k0)) = false := by
      cases hb : d.any (fun p => p.1 == k0)
      · rfl
      · exact absurd hb hc
    rw [dict_update_keys_any_false hc']
    simp

theorem dict_update_nodup {d : List (String × List PyVal)} {k : String}
    {v : List PyVal} (h : (d.map (fun p => p.1)).Nodup) :
    ((dict_update d k v).map (fun p => p.1)).Nodup := by
  by_cases hc : (d.any (fun p => p.1 == k)) = true
  · rw [dict_update_keys_any_true hc]
    exact h
  · have hc' : (d.any (fun p => p.1 == k)) = false := by
      cases hb : d.any (fun p => p.1 == k)
      · rfl
      · exact absurd hb hc
    rw [dict_update_keys_any_false hc']
    rw [List.nodup_append]
    refine ⟨h, List.nodup_singleton k, ?_⟩
    intro x hx hk
    rw [List.mem_singleton] at hk
    subst hk
    have := List.any_eq_false.mp hc'
    obtain ⟨q, hq, hqe⟩ := List.mem_map.mp hx
    exact this q hq (by simp [hqe])

theorem transform_eq (self : StringTransformer) (X : DataFrame) :
    self.transform X =
      self.buildFuncs X (self.selectedColumns X) >>=
        (fun fs => Except.ok (X.assign fs)) := rfl

theorem transform_ok_decompose {self : StringTransformer} {X Y : DataFrame}
    (h : self.transform X = Except.ok Y) :
    ∃ fs, self.buildFuncs X (self.selectedColumns X) = Except.ok fs ∧
      Y = X.assign fs := by
  rw [transform_eq] at h
  cases hb : self.buildFuncs X (self.selectedColumns X) with
  | error e => rw [hb] at h; exact Except.noConfusion h
  | ok fs =>
    rw [hb] at h
    simp only [except_bind_ok] at h
    refine ⟨fs, rfl, ?_⟩
    have := h
    injection this with h'
    exact h'.symm

theorem buildFold_ok_spec (self : StringTransformer) (X : DataFrame) :
    ∀ (cols : List String) (acc fs : List (String × List PyVal)),
      funcsSpec self X acc → ((acc.map (fun p => p.1)).Nodup) →
      List.foldlM (self.buildStep X) acc cols = Except.ok fs →
      funcsSpec self X fs ∧ ((fs.map (fun p => p.1)).Nodup) ∧
      (∀ k, k ∈ fs.map (fun p => p.1) ↔
        (k ∈ acc.map (fun p => p.1) ∨ k ∈ cols)) := by
  intro cols
  induction cols with
  | nil =>
    intro acc fs hspec hnd h
    rw [List.foldlM_nil] at h
    have h2 : Except.ok acc = Except.ok fs := h
    have hacc : acc = fs := by injection h2
    subst hacc
    exact ⟨hspec, hnd, fun k => by simp⟩
  | cons c0 rest ih =>
    intro acc fs hspec hnd h
    rw [List.foldlM_cons] at h
    cases hs : self.buildStep X acc c0 with
    | error e =>
      rw [hs] at h
      exact Except.noConfusion h
    | ok acc1 =>
      rw [hs] at h
      simp only [except_bind_ok] at h
      unfold StringTransformer.buildStep at hs
      cases hg : X.getCol c0 with
      | error e =>
        rw [hg] at hs
        exact Except.noConfusion hs
      | ok c =>
        rw [hg] at hs
        simp only [except_bind_ok] at hs
        cases hm : c.values.mapM self._apply_steps with
        | error e =>
          rw [hm] at hs
          exact Except.noConfusion hs
        | ok mapped =>
          rw [hm] at hs
          simp only [except_bind_ok] at hs
          have hs2 : Except.ok (dict_update acc c0 mapped) = Except.ok acc1 := hs
          have hacc1 : dict_update acc c0 mapped = acc1 := by injection hs2
          subst hacc1
          have hspec1 : funcsSpec self X (dict_update acc c0 mapped) := by
            intro p hp
            rcases dict_update_mem hp with hp1 | hp1
            · exact hspec p hp1
            · rw [hp1]
              exact ⟨c, hg, hm⟩
          obtain ⟨s1, s2, s3⟩ := ih _ _ hspec1 (dict_update_nodup hnd) h
          refine ⟨s1, s2, fun k => ?_⟩
          rw [s3 k, mem_keys_dict_update k]
          constructor
          · rintro ((hk | rfl) | hk)
            · exact Or.inl hk
            · exact Or.inr (List.mem_cons_self _ _)
            · exact Or.inr (List.mem_cons_of_mem _ hk)
          · rintro (hk | hk)
            · exact Or.inl (Or.inl hk)
            · rcases List.mem_cons.mp hk with rfl | hk1
              · exact Or.inl (Or.inr rfl)
              · exact Or.inr hk1

theorem find?_map_fst (l : List (String × Column))
    (g : (String × Column) → (String × Column)) (hg : ∀ x, (g x).1 = x.1)
    (n : String) :
    (l.map g).find? (fun c => c.1 == n) = (l.find? (fun c => c.1 == n)).map g := by
  induction l with
  | nil => rfl
  | cons x rest ih =>
    simp only [List.map_cons, List.find?_cons, hg]
    cases hx : x.1 == n
    · simpa [hx] using ih
    · simp [hx]

theorem map_fst_comp {l : List (String × Column)}
    {g : (String × Column) → (String × Column)} (hg : ∀ x, (g x).1 = x.1) :
    l.map (fun x => (g x).1) = l.map (fun x => x.1) := by
  induction l with
  | nil => rfl
  | cons x rest ih => simp [hg, ih]

theorem assign_g_fst (fs : List (String × List PyVal)) (x : String × Column) :
    ((fun nc : String × Column =>
      match fs.lookup nc.1 with
      | some vs => (nc.1, Column.mk Dtype.object vs)
      | none => nc) x).1 = x.1 := by
  show (match fs.lookup x.1 with
    | some vs => (x.1, Column.mk Dtype.object vs)
    | none => x).1 = x.1
  cases fs.lookup x.1 <;> rfl

theorem assign_cols_of_keys_sub {X : DataFrame} {fs : List (String × List PyVal)}
    (hsub : ∀ p ∈ fs, p.1 ∈ X.names) :
    (X.assign fs).cols = X.cols.map (fun nc =>
      match fs.lookup nc.1 with
      | some vs => (nc.1, Column.mk Dtype.object vs)
      | none => nc) := by
  unfold DataFrame.assign
  have hnil : fs.filter (fun f => !(X.names.contains f.1)) = [] := by
    rw [List.filter_eq_nil_iff]
    intro p hp
    simp [hsub p hp]
  rw [hnil]
  simp

theorem assign_names {X : DataFrame} {fs : List (String × List PyVal)}
    (hsub : ∀ p ∈ fs, p.1 ∈ X.names) : (X.assign fs).names = X.names := by
  unfold DataFrame.names
  rw [assign_cols_of_keys_sub hsub, List.map_map]
  exact map_fst_comp (assign_g_fst fs)

theorem assign_colValues_lookup {X : DataFrame} {fs : List (String × List PyVal)}
    (hsub : ∀ p ∈ fs, p.1 ∈ X.names) {n : String} {vs : List PyVal}
    (hlk : fs.lookup n = some vs) (hn : n ∈ X.names) :
    (X.assign fs).colValues n = some vs := by
  unfold DataFrame.colValues
  rw [assign_cols_of_keys_sub hsub, find?_map_fst _ _ (assign_g_fst fs)]
  obtain ⟨pr, hpr, hfst⟩ := find?_fst_of_mem_names hn
  rw [hpr, Option.map_some', hfst, hlk]
  rfl

theorem assign_find?_lookup_none {X : DataFrame} {fs : List (String × List PyVal)}
    (hsub : ∀ p ∈ fs, p.1 ∈ X.names) {n : String} (hlk : fs.lookup n = none) :
    (X.assign fs).cols.find? (fun c => c.1 == n) =
      X.cols.find? (fun c => c.1 == n) := by
  rw [assign_cols_of_keys_sub hsub, find?_map_fst _ _ (assign_g_fst fs)]
  cases hf : X.cols.find? (fun c => c.1 == n) with
  | none => rfl
  | some pr =>
    have hfst : pr.1 = n := (find?_fst_eq_some hf).2
    rw [Option.map_some', hfst, hlk]

theorem transform_error_of_fold_error {self : StringTransformer} {X : DataFrame}
    {e : PyErr}
    (he : List.foldlM (self.buildStep X) [] (self.selectedColumns X) =
      Except.error e) : self.transform X = Except.error e := by
  rw [transform_eq]
  unfold StringTransformer.buildFuncs
  rw [he]
  rfl

theorem buildFold_error_of_missing (self : StringTransformer) (X : DataFrame) :
    ∀ (cols : List String) (acc : List (String × List PyVal)),
      (∃ c ∈ cols, c ∉ X.names) →
      ∃ e, List.foldlM (self.buildStep X) acc cols = Except.error e := by
  intro cols
  induction cols with
  | nil =>
    intro acc h
    obtain ⟨c, hc, _⟩ := h
    exact absurd hc (List.not_mem_nil c)
  | cons c0 rest ih =>
    intro acc h
    rw [List.foldlM_cons]
    cases hs : self.buildStep X acc c0 with
    | error e =>
      exact ⟨e, rfl⟩
    | ok acc1 =>
      have hc0 : c0 ∈ X.names := by
        by_contra hc0
        have hbad : self.buildStep X acc c0 =
            Except.error ⟨PyErrKind.keyError, c0⟩ := by
          unfold StringTransformer.buildStep
          rw [getCol_error_of_not_mem hc0]
          rfl
        rw [hbad] at hs
        exact Except.noConfusion hs
      obtain ⟨c, hcm, hcn⟩ := h
      have hcrest : c ∈ rest := by
        rcases List.mem_cons.mp hcm with rfl | h1
        · exact absurd hc0 hcn
        · exact h1
      obtain ⟨e, he⟩ := ih acc1 ⟨c, hcrest, hcn⟩
      refine ⟨e, ?_⟩
      simpa using he

theorem buildFold_keyerror_of_missing (self : StringTransformer) (X : DataFrame)
    (hsteps : ∀ st ∈ self._pipeline, ∀ v a k, ∃ r, st.1 v a k = Except.ok r) :
    ∀ (cols : List String) (acc : List (String × List PyVal)),
      (∃ c ∈ cols, c ∉ X.names) →
      ∃ e, List.foldlM (self.buildStep X) acc cols = Except.error e ∧
        e.kind = PyErrKind.keyError := by
  have happly : ∀ v, ∃ w, self._apply_steps v = Except.ok w := fun v =>
    foldlM_ok_of_steps_ok self._pipeline hsteps v
  intro cols
  induction cols with
  | nil =>
    intro acc h
    obtain ⟨c, hc, _⟩ := h
    exact absurd hc (List.not_mem_nil c)
  | cons c0 rest ih =>
    intro acc h
    rw [List.foldlM_cons]
    by_cases hc0 : c0 ∈ X.names
    · obtain ⟨pr, hpr, hfst⟩ := find?_fst_of_mem_names hc0
      have hg : X.getCol c0 = Except.ok pr.2 := by
        unfold DataFrame.getCol
        rw [hpr]
      obtain ⟨ws, hws⟩ := mapM_ok_of_forall_ok pr.2.values (fun v _ => happly v)
      have hs : self.buildStep X acc c0 = Except.ok (dict_update acc c0 ws) := by
        unfold StringTransformer.buildStep
        rw [hg]
        simp only [except_bind_ok]
        rw [hws]
        rfl
      rw [hs]
      simp only [except_bind_ok]
      obtain ⟨c, hcm, hcn⟩ := h
      have hcrest : c ∈ rest := by
        rcases List.mem_cons.mp hcm with rfl | h1
        · exact absurd hc0 hcn
        · exact h1
      exact ih _ ⟨c, hcrest, hcn⟩
    · refine ⟨⟨PyErrKind.keyError, c0⟩, ?_, rfl⟩
      have hs : self.buildStep X acc c0 =
          Except.error ⟨PyErrKind.keyError, c0⟩ := by
        unfold StringTransformer.buildStep
        rw [getCol_error_of_not_mem hc0]
        rfl
      rw [hs]
      rfl

/-- Claim C3: on every successful `transform` over a frame with unique
column labels, the returned frame is a new frame identical to the input
except that each target column's values are replaced by their per-value
transformed counterparts; every non-target column is passed through
unchanged (its full name/dtype/values entry is preserved).  In the pure
embedding `transform` never mutates its input — also when it raises
mid-way — since it returns a fresh `DataFrame` built by `assign`. -/
theorem C3_transform_returns_updated_copy (self : StringTransformer)
    (X Y : DataFrame) (_hnd : X.names.Nodup) (h : self.transform X = Except.ok Y) :
    Y.names = X.names ∧
    (∀ n, n ∈ self.selectedColumns X →
      ∃ c vs, X.getCol n = Except.ok c ∧
        c.values.mapM self._apply_steps = Except.ok vs ∧ Y.colValues n = some vs) ∧
    (∀ n, n ∉ self.selectedColumns X →
      Y.cols.find? (fun c => c.1 == n) = X.cols.find? (fun c => c.1 == n)) := by
  obtain ⟨fs, hb, hY⟩ := transform_ok_decompose h
  unfold StringTransformer.buildFuncs at hb
  obtain ⟨hspec, hkeysnd, hkeys⟩ := buildFold_ok_spec self X (self.selectedColumns X)
    [] fs (fun p hp => absurd hp (List.not_mem_nil p)) (by simp) hb
  have hsub : ∀ p ∈ fs, p.1 ∈ X.names := by
    intro p hp
    obtain ⟨c, hg, _⟩ := hspec p hp
    exact mem_names_of_getCol_ok hg
  subst hY
  refine ⟨assign_names hsub, fun n hn => ?_, fun n hn => ?_⟩
  · have hk : n ∈ fs.map (fun p => p.1) := (hkeys n).mpr (Or.inr hn)
    obtain ⟨p, hp, hp1⟩ := List.mem_map.mp hk
    obtain ⟨c, hg, hm⟩ := hspec p hp
    have hlk : fs.lookup n = some p.2 := by
      rw [← hp1]
      exact lookup_eq_some_of_mem_nodup hkeysnd hp
    refine ⟨c, p.2, by rw [← hp1]; exact hg, hm, ?_⟩
    exact assign_colValues_lookup hsub hlk (hp1 ▸ hsub p hp)
  · have hk : n ∉ fs.map (fun p => p.1) := by
      intro hk
      rcases (hkeys n).mp hk with h1 | h1
      · exact absurd h1 (List.not_mem_nil n)
      · exact hn h1
    exact assign_find?_lookup_none hsub (lookup_eq_none_of_not_mem_keys hk)

/-- Witness for C3: `tfmZ` (explicit columns `["a"]`, one constant step)
applied to `frameAB` yields `frameABZ` — column `a` rewritten cell-wise,
column `b` passed through untouched. -/
theorem C3_transform_returns_updated_copy_witness :
    frameABZ.names = frameAB.names ∧
    (∃ c vs, frameAB.getCol "a" = Except.ok c ∧
      c.values.mapM tfmZ._apply_steps = Except.ok vs ∧
      frameABZ.colValues "a" = some vs) ∧
    frameABZ.cols.find? (fun c => c.1 == "b") =
      frameAB.cols.find? (fun c => c.1 == "b") := by
  obtain ⟨h1, h2, h3⟩ :=
    C3_transform_returns_updated_copy tfmZ frameAB frameABZ (by decide) rfl
  exact ⟨h1, h2 "a" (by decide), h3 "b" (by decide)⟩

/-- Claim C9: a pipeline with zero registered steps is the identity
transform — on every successful `transform` over a frame with unique
column labels, the returned frame has the same column names and,
for every name, the same cell values as the input. -/
theorem C9_empty_pipeline_identity (self : StringTransformer) (X Y : DataFrame)
    (hp : self._pipeline = []) (_hnd : X.names.Nodup)
    (h : self.transform X = Except.ok Y) :
    Y.names = X.names ∧ ∀ n, Y.colValues n = X.colValues n := by
  obtain ⟨fs, hb, hY⟩ := transform_ok_decompose h
  unfold StringTransformer.buildFuncs at hb
  obtain ⟨hspec, hkeysnd, hkeys⟩ := buildFold_ok_spec self X (self.selectedColumns X)
    [] fs (fun p hp2 => absurd hp2 (List.not_mem_nil p)) (by simp) hb
  have hid : ∀ v, self._apply_steps v = Except.ok v := apply_steps_nil hp
  have hsub : ∀ p ∈ fs, p.1 ∈ X.names := by
    intro p hp2
    obtain ⟨c, hg, _⟩ := hspec p hp2
    exact mem_names_of_getCol_ok hg
  subst hY
  refine ⟨assign_names hsub, fun n => ?_⟩
  by_cases hk : n ∈ fs.map (fun p => p.1)
  · obtain ⟨p, hp2, hp1⟩ := List.mem_map.mp hk
    obtain ⟨c, hg, hm⟩ := hspec p hp2
    rw [mapM_id hid] at hm
    have hv : c.values = p.2 := by injection hm
    have hlk : fs.lookup n = some p.2 := by
      rw [← hp1]
      exact lookup_eq_some_of_mem_nodup hkeysnd hp2
    rw [assign_colValues_lookup hsub hlk (hp1 ▸ hsub p hp2),
      colValues_of_getCol_ok (hp1 ▸ hg), hv]
  · have hlk := lookup_eq_none_of_not_mem_keys hk
    unfold DataFrame.colValues
    rw [assign_find?_lookup_none hsub hlk]

/-- Witness for C9: the step-less `tfmId` maps `frameAB` to itself. -/
theorem C9_empty_pipeline_identity_witness :
    frameAB.names = frameAB.names ∧ frameAB.colValues "a" = frameAB.colValues "a" := by
  obtain ⟨h1, h2⟩ :=
    C9_empty_pipeline_identity tfmId frameAB frameAB rfl (by decide) rfl
  exact ⟨h1, h2 "a"⟩

/-- Claim C7: with an explicit (non-empty) column list containing a name
absent from the frame, `transform` fails; and — provided no registered
step itself raises, so no step error pre-empts the column lookup — the
error raised is `KeyError`-kind, coming from the `X[col]` lookup of the
first missing column. -/
theorem C7_missing_column_fails (self : StringTransformer) (X : DataFrame)
    (l : List String) (c : String) (hc : self._columns = some l) (hl : l ≠ [])
    (hmem : c ∈ l) (habs : c ∉ X.names) :
    (∃ e, self.transform X = Except.error e) ∧
    ((∀ st ∈ self._pipeline, ∀ v a k, ∃ r, st.1 v a k = Except.ok r) →
      ∃ e, self.transform X = Except.error e ∧ e.kind = PyErrKind.keyError) := by
  have hsel : self.selectedColumns X = l := by
    cases l with
    | nil => exact absurd rfl hl
    | cons hd tl => simp [StringTransformer.selectedColumns, hc]
  constructor
  · obtain ⟨e, he⟩ := buildFold_error_of_missing self X l [] ⟨c, hmem, habs⟩
    exact ⟨e, transform_error_of_fold_error (by rw [hsel]; exact he)⟩
  · intro hsteps
    obtain ⟨e, he, hk⟩ :=
      buildFold_keyerror_of_missing self X hsteps l [] ⟨c, hmem, habs⟩
    exact ⟨e, transform_error_of_fold_error (by rw [hsel]; exact he), hk⟩

/-- Witness for C7: `tfmMissing` selects the absent column `zz` of
`frameA`, so its `transform` fails, with a `KeyError`-kind error since
its (empty) pipeline raises nowhere. -/
theorem C7_missing_column_fails_witness :
    (∃ e, tfmMissing.transform frameA = Except.error e) ∧
    ((∀ st ∈ tfmMissing._pipeline, ∀ v a k, ∃ r, st.1 v a k = Except.ok r) →
      ∃ e, tfmMissing.transform frameA = Except.error e ∧
        e.kind = PyErrKind.keyError) :=
  C7_missing_column_fails tfmMissing frameA ["zz"] "zz" rfl (by decide)
    (by decide) (by decide)
